import Mathlib

/-
  Verification of the Argus.cpp network monitor against its specification.

  The definitions below are shallow embeddings of the C++ sources:
  * monitor_state / update_status / add_result  — src/src/monitor_state.{h,cpp}
  * monitor_status                              — src/src/core/types.h
  * fixed_delay_recovery / scheduler retry      — src/src/utils/task_recovery_policy.cpp,
                                                  src/src/utils/async_scheduler.cpp
  * push_notification_manager::send_notification— src/src/web/push_notification_manager.cpp
  * system_ping_tester::build_ping_command      — src/src/testers/ping_tester.cpp
  * webpush_encryption                          — src/src/crypto/webpush_encryption.cpp
  * base64url                                   — src/src/crypto/crypto_utils.cpp
  * thread_pool worker loop                     — src/src/utils/thread_pool.cpp
-/

namespace Argus

/-- Status enum from src/src/core/types.h line 8:
`enum class monitor_status { pending, ok, warning, failure };` -/
inductive monitor_status : Type where
  | pending : monitor_status
  | ok : monitor_status
  | warning : monitor_status
  | failure : monitor_status
deriving DecidableEq

/-- The threshold fields of a `destination` (src/src/types.h).  The constructor
validates all of them to be strictly positive (`validate_parameters`). -/
structure destination where
  warning : Nat
  failure : Nat
  reset : Nat
  history : Nat
deriving DecidableEq

/-- A probe outcome, from class `test_result` in src/src/types.h.  The wall
clock timestamp is modelled as an abstract tick. -/
structure test_result where
  success : Bool
  duration_ms : Nat
  timestamp : Nat
  error : Option String
deriving DecidableEq

/-- Mutable fields of class `monitor_state` (src/src/monitor_state.h lines 27-41). -/
structure monitor_state where
  history : List test_result
  consecutive_failures : Nat
  consecutive_successes : Nat
  current_status : monitor_status
  last_result : test_result
deriving DecidableEq

/-- A freshly constructed `monitor_state`: the member initializers of
src/src/monitor_state.h (`current_status_ = monitor_status::ok`, zero
counters, empty history) and the constructor's
`last_result_(false, 0, std::chrono::system_clock::now())`. -/
def monitor_state.init : monitor_state :=
  { history := []
    consecutive_failures := 0
    consecutive_successes := 0
    current_status := monitor_status.ok
    last_result := { success := false, duration_ms := 0, timestamp := 0, error := none } }

/-- `monitor_state::update_status` (src/src/monitor_state.cpp lines 27-49). -/
def update_status (dest : destination) (s : monitor_state) (test_success : Bool) :
    monitor_state :=
  if test_success then
    let s1 := { s with consecutive_successes := s.consecutive_successes + 1,
                       consecutive_failures := 0 }
    if s1.current_status ≠ monitor_status.ok ∧ dest.reset ≤ s1.consecutive_successes then
      { s1 with current_status := monitor_status.ok, consecutive_successes := 0 }
    else
      s1
  else
    let s1 := { s with consecutive_failures := s.consecutive_failures + 1,
                       consecutive_successes := 0 }
    if dest.failure ≤ s1.consecutive_failures then
      { s1 with current_status := monitor_status.failure }
    else if dest.warning ≤ s1.consecutive_failures then
      { s1 with current_status := monitor_status.warning }
    else
      s1

/-- The `while (history_.size() > max_history) history_.pop_front();` loop of
`monitor_state::add_result` (src/src/monitor_state.cpp lines 20-22). -/
def trim_history (max_history : Nat) : List test_result → List test_result
  | [] => []
  | r :: rest =>
      if max_history < (r :: rest).length then trim_history max_history rest
      else r :: rest

/-- `monitor_state::add_result` (src/src/monitor_state.cpp lines 12-25):
store the last result, push onto the history, trim the history to
`min(destination_.history, 1000)`, then run `update_status`. -/
def add_result (dest : destination) (s : monitor_state) (result : test_result) :
    monitor_state :=
  let max_history := min dest.history 1000
  let s1 := { s with last_result := result,
                     history := trim_history max_history (s.history ++ [result]) }
  update_status dest s1 result.success

/-- Apply a sequence of probe outcomes, one `add_result` call each. -/
def apply_results (dest : destination) (s : monitor_state) (rs : List test_result) :
    monitor_state :=
  rs.foldl (add_result dest) s

/- ------------------------------------------------------------------ -/
/- Helper lemmas about the state machine                               -/
/- ------------------------------------------------------------------ -/

theorem update_status_history (dest : destination) (s : monitor_state) (b : Bool) :
    (update_status dest s b).history = s.history ∧
      (update_status dest s b).last_result = s.last_result := by
  unfold update_status
  split
  · dsimp only
    split <;> exact ⟨rfl, rfl⟩
  · dsimp only
    split
    · exact ⟨rfl, rfl⟩
    · split <;> exact ⟨rfl, rfl⟩

theorem update_status_fail_counts (dest : destination) (s : monitor_state) :
    (update_status dest s false).consecutive_failures = s.consecutive_failures + 1 ∧
      (update_status dest s false).consecutive_successes = 0 := by
  unfold update_status
  simp only [Bool.false_eq_true, if_false]
  split
  · exact ⟨rfl, rfl⟩
  · split <;> exact ⟨rfl, rfl⟩

theorem update_status_fail_failure (dest : destination) (s : monitor_state)
    (h : dest.failure ≤ s.consecutive_failures + 1) :
    (update_status dest s false).current_status = monitor_status.failure := by
  unfold update_status
  simp only [Bool.false_eq_true, if_false]
  rw [if_pos h]

theorem update_status_fail_warning (dest : destination) (s : monitor_state)
    (h1 : ¬ dest.failure ≤ s.consecutive_failures + 1)
    (h2 : dest.warning ≤ s.consecutive_failures + 1) :
    (update_status dest s false).current_status = monitor_status.warning := by
  unfold update_status
  simp only [Bool.false_eq_true, if_false]
  rw [if_neg h1, if_pos h2]

theorem update_status_succ_cf (dest : destination) (s : monitor_state) :
    (update_status dest s true).consecutive_failures = 0 := by
  unfold update_status
  simp only [if_true]
  split <;> rfl

theorem update_status_succ_reset (dest : destination) (s : monitor_state)
    (h1 : s.current_status ≠ monitor_status.ok)
    (h2 : dest.reset ≤ s.consecutive_successes + 1) :
    (update_status dest s true).current_status = monitor_status.ok ∧
      (update_status dest s true).consecutive_successes = 0 := by
  unfold update_status
  simp only [if_true]
  rw [if_pos ⟨h1, h2⟩]
  exact ⟨rfl, rfl⟩

theorem update_status_succ_noreset (dest : destination) (s : monitor_state)
    (h : ¬ (s.current_status ≠ monitor_status.ok ∧
        dest.reset ≤ s.consecutive_successes + 1)) :
    (update_status dest s true).current_status = s.current_status ∧
      (update_status dest s true).consecutive_successes = s.consecutive_successes + 1 := by
  unfold update_status
  simp only [if_true]
  rw [if_neg h]
  exact ⟨rfl, rfl⟩

theorem add_result_fail_counts (dest : destination) (s : monitor_state) (r : test_result)
    (h : r.success = false) :
    (add_result dest s r).consecutive_failures = s.consecutive_failures + 1 ∧
      (add_result dest s r).consecutive_successes = 0 := by
  unfold add_result
  rw [h]
  exact update_status_fail_counts dest _

theorem add_result_succ_cf (dest : destination) (s : monitor_state) (r : test_result)
    (h : r.success = true) :
    (add_result dest s r).consecutive_failures = 0 := by
  unfold add_result
  rw [h]
  exact update_status_succ_cf dest _

theorem add_result_fail_failure (dest : destination) (s : monitor_state) (r : test_result)
    (hr : r.success = false) (h : dest.failure ≤ s.consecutive_failures + 1) :
    (add_result dest s r).current_status = monitor_status.failure := by
  unfold add_result
  rw [hr]
  exact update_status_fail_failure dest _ h

theorem add_result_fail_warning (dest : destination) (s : monitor_state) (r : test_result)
    (hr : r.success = false)
    (h1 : ¬ dest.failure ≤ s.consecutive_failures + 1)
    (h2 : dest.warning ≤ s.consecutive_failures + 1) :
    (add_result dest s r).current_status = monitor_status.warning := by
  unfold add_result
  rw [hr]
  exact update_status_fail_warning dest _ h1 h2

theorem add_result_succ_reset (dest : destination) (s : monitor_state) (r : test_result)
    (hr : r.success = true)
    (h1 : s.current_status ≠ monitor_status.ok)
    (h2 : dest.reset ≤ s.consecutive_successes + 1) :
    (add_result dest s r).current_status = monitor_status.ok ∧
      (add_result dest s r).consecutive_successes = 0 := by
  unfold add_result
  rw [hr]
  exact update_status_succ_reset dest _ h1 h2

theorem add_result_succ_noreset (dest : destination) (s : monitor_state) (r : test_result)
    (hr : r.success = true)
    (h : ¬ (s.current_status ≠ monitor_status.ok ∧
        dest.reset ≤ s.consecutive_successes + 1)) :
    (add_result dest s r).current_status = s.current_status ∧
      (add_result dest s r).consecutive_successes = s.consecutive_successes + 1 := by
  unfold add_result
  rw [hr]
  exact update_status_succ_noreset dest _ h

theorem foldl_fail_cf (dest : destination) :
    ∀ (rs : List test_result) (s : monitor_state), (∀ r ∈ rs, r.success = false) →
      (apply_results dest s rs).consecutive_failures =
        s.consecutive_failures + rs.length
  | [], s, _ => by simp [apply_results]
  | r :: rest, s, h => by
      have hr : r.success = false := h r (List.mem_cons_self r rest)
      have hrest : ∀ x ∈ rest, x.success = false := fun x hx => h x (List.mem_cons_of_mem r hx)
      have step := add_result_fail_counts dest s r hr
      have ih := foldl_fail_cf dest rest (add_result dest s r) hrest
      simp only [apply_results, List.foldl_cons] at ih ⊢
      rw [ih, step.1, List.length_cons]
      omega

theorem foldl_succ_below (dest : destination) :
    ∀ (rs : List test_result) (s : monitor_state), (∀ r ∈ rs, r.success = true) →
      s.current_status ≠ monitor_status.ok →
      s.consecutive_successes + rs.length < dest.reset →
      (apply_results dest s rs).current_status = s.current_status ∧
        (apply_results dest s rs).consecutive_successes =
          s.consecutive_successes + rs.length
  | [], s, _, _, _ => by simp [apply_results]
  | r :: rest, s, h, hstat, hlt => by
      have hr : r.success = true := h r (List.mem_cons_self r rest)
      have hrest : ∀ x ∈ rest, x.success = true := fun x hx => h x (List.mem_cons_of_mem r hx)
      have hstep := add_result_succ_noreset dest s r hr (by
        intro hc
        have := hc.2
        simp only [List.length_cons] at hlt
        omega)
      have ih := foldl_succ_below dest rest (add_result dest s r) hrest
        (by rw [hstep.1]; exact hstat)
        (by rw [hstep.2]; simp only [List.length_cons] at hlt; omega)
      simp only [apply_results, List.foldl_cons] at ih ⊢
      rw [ih.1, ih.2, hstep.1, hstep.2, List.length_cons]
      exact ⟨rfl, by omega⟩

/- ------------------------------------------------------------------ -/
/- Claim C1                                                            -/
/- ------------------------------------------------------------------ -/

/-- Claim C1: for a monitor state with thresholds `W = dest.warning` and
`F = dest.failure`, `W ≤ F`, starting with no failure streak, after `k ≥ 1`
consecutive failed outcomes the status is Warning when `W ≤ k < F` and
Failure when `k ≥ F`; each failed outcome increments `consecutive_failures`
and zeroes `consecutive_successes`. -/
theorem failure_thresholds (dest : destination) (s : monitor_state)
    (rs : List test_result)
    (hWF : dest.warning ≤ dest.failure)
    (hfail : ∀ r ∈ rs, r.success = false)
    (hcf : s.consecutive_failures = 0)
    (hk : 1 ≤ rs.length) :
    ((dest.warning ≤ rs.length → rs.length < dest.failure →
        (apply_results dest s rs).current_status = monitor_status.warning) ∧
      (dest.failure ≤ rs.length →
        (apply_results dest s rs).current_status = monitor_status.failure)) ∧
    (∀ (s' : monitor_state) (r : test_result), r.success = false →
        (add_result dest s' r).consecutive_failures = s'.consecutive_failures + 1 ∧
        (add_result dest s' r).consecutive_successes = 0) := by
  refine ⟨?_, fun s' r hr => add_result_fail_counts dest s' r hr⟩
  rcases List.eq_nil_or_concat rs with hnil | ⟨l, r, hconcat⟩
  · subst hnil; simp at hk
  · subst hconcat
    have hl : ∀ x ∈ l, x.success = false := fun x hx => hfail x (by simp [hx])
    have hr : r.success = false := hfail r (by simp)
    have hcfl : (apply_results dest s l).consecutive_failures = l.length := by
      rw [foldl_fail_cf dest l s hl, hcf]
      omega
    have hlen : (l.concat r).length = l.length + 1 := by simp
    have hfold : apply_results dest s (l.concat r) =
        add_result dest (apply_results dest s l) r := by
      simp [apply_results, List.concat_eq_append]
    rw [hfold]
    set t := apply_results dest s l with ht
    constructor
    · intro hW hF
      exact add_result_fail_warning dest t r hr (by rw [hcfl]; omega) (by rw [hcfl]; omega)
    · intro hF
      exact add_result_fail_failure dest t r hr (by rw [hcfl]; omega)

/-- Witness for C1: with `W = 2`, `F = 3`, two consecutive failures yield
status Warning, and three yield Failure. -/
theorem failure_thresholds_witness :
    (apply_results ⟨2, 3, 2, 10⟩ monitor_state.init
        [⟨false, 0, 0, none⟩, ⟨false, 0, 0, none⟩]).current_status =
      monitor_status.warning := by
  exact (failure_thresholds ⟨2, 3, 2, 10⟩ monitor_state.init
    [⟨false, 0, 0, none⟩, ⟨false, 0, 0, none⟩]
    (by decide) (by decide) rfl (by decide)).1.1 (by decide) (by decide)

/- ------------------------------------------------------------------ -/
/- Claim C2                                                            -/
/- ------------------------------------------------------------------ -/

/-- Claim C2: from any non-Ok state with no current success streak, the
status stays unchanged (hence non-Ok) while fewer than `R = dest.reset`
consecutive successes have been applied, becomes Ok exactly upon the `R`-th
consecutive success with `consecutive_successes` cleared to zero, and every
successful outcome zeroes `consecutive_failures`. -/
theorem reset_on_successes (dest : destination) (s : monitor_state)
    (rs : List test_result)
    (hsucc : ∀ r ∈ rs, r.success = true)
    (hstat : s.current_status ≠ monitor_status.ok)
    (hcs : s.consecutive_successes = 0)
    (hR : 1 ≤ dest.reset) :
    (rs.length < dest.reset →
        (apply_results dest s rs).current_status ≠ monitor_status.ok) ∧
    (rs.length = dest.reset →
        (apply_results dest s rs).current_status = monitor_status.ok ∧
        (apply_results dest s rs).consecutive_successes = 0) ∧
    (∀ (s' : monitor_state) (r : test_result), r.success = true →
        (add_result dest s' r).consecutive_failures = 0) := by
  refine ⟨?_, ?_, fun s' r hr => add_result_succ_cf dest s' r hr⟩
  · intro hlt
    have := foldl_succ_below dest rs s hsucc hstat (by omega)
    rw [this.1]
    exact hstat
  · intro heq
    rcases List.eq_nil_or_concat rs with hnil | ⟨l, r, hconcat⟩
    · subst hnil; simp at heq; omega
    · subst hconcat
      have hl : ∀ x ∈ l, x.success = true := fun x hx => hsucc x (by simp [hx])
      have hr : r.success = true := hsucc r (by simp)
      have hlen : l.length + 1 = dest.reset := by simpa using heq
      have hbelow := foldl_succ_below dest l s hl hstat (by omega)
      have hfold : apply_results dest s (l.concat r) =
          add_result dest (apply_results dest s l) r := by
        simp [apply_results, List.concat_eq_append]
      rw [hfold]
      set t := apply_results dest s l with ht
      have htstat : t.current_status ≠ monitor_status.ok := by rw [hbelow.1]; exact hstat
      have htcs : t.consecutive_successes = l.length := by rw [hbelow.2, hcs]; omega
      exact add_result_succ_reset dest t r hr htstat (by rw [htcs]; omega)

/-- Witness for C2: with `R = 2`, a Warning state returns to Ok exactly on
the second consecutive success, with the success counter cleared. -/
theorem reset_on_successes_witness :
    (apply_results ⟨2, 3, 2, 10⟩
        { monitor_state.init with current_status := monitor_status.warning }
        [⟨true, 1, 0, none⟩, ⟨true, 1, 0, none⟩]).current_status =
      monitor_status.ok ∧
    (apply_results ⟨2, 3, 2, 10⟩
        { monitor_state.init with current_status := monitor_status.warning }
        [⟨true, 1, 0, none⟩, ⟨true, 1, 0, none⟩]).consecutive_successes = 0 := by
  exact (reset_on_successes ⟨2, 3, 2, 10⟩
    { monitor_state.init with current_status := monitor_status.warning }
    [⟨true, 1, 0, none⟩, ⟨true, 1, 0, none⟩]
    (by decide) (by decide) rfl (by decide)).2.1 (by decide)

/- ------------------------------------------------------------------ -/
/- Claim C3                                                            -/
/- ------------------------------------------------------------------ -/

/-- Claim C3 counterexample: a freshly constructed `monitor_state` does not
have status Pending: the member initializer in src/src/monitor_state.h is
`current_status_ = monitor_status::ok`. -/
theorem fresh_state_not_pending :
    monitor_state.init.current_status ≠ monitor_status.pending := by
  decide

/-- Claim C3 amended: a freshly constructed `monitor_state`, before any
outcome has been applied, has status Ok. -/
theorem fresh_state_status_ok :
    monitor_state.init.current_status = monitor_status.ok := rfl

/- ------------------------------------------------------------------ -/
/- Claim C8                                                            -/
/- ------------------------------------------------------------------ -/

theorem trim_history_le (m : Nat) :
    ∀ l : List test_result, (trim_history m l).length ≤ m ∨
      ((trim_history m l = l) ∧ l.length ≤ m)
  | [] => Or.inr ⟨rfl, by simp⟩
  | r :: rest => by
      unfold trim_history
      split
      · rcases trim_history_le m rest with h | h
        · exact Or.inl h
        · left; rw [h.1]; exact h.2
      · right
        refine ⟨rfl, ?_⟩
        omega

theorem trim_history_getLast (m : Nat) (hm : 1 ≤ m) :
    ∀ (l : List test_result) (r : test_result),
      (trim_history m (l ++ [r])).getLast? = some r
  | [], r => by
      unfold trim_history
      simp only [List.nil_append, List.length_cons, List.length_nil]
      rw [if_neg (by omega)]
      rfl
  | a :: l, r => by
      have : (a :: l) ++ [r] = a :: (l ++ [r]) := by simp
      rw [this]
      unfold trim_history
      split
      · exact trim_history_getLast m hm l r
      · rw [show a :: (l ++ [r]) = (a :: l) ++ [r] by simp]
        exact List.getLast?_concat _

/-- Claim C8: after each application of an outcome, the history length is at
most `min dest.history 1000`, and the most recent history element equals the
state's last result.  The hypothesis `1 ≤ dest.history` is the destination
constructor's validation (`set_history` rejects non-positive sizes). -/
theorem history_invariant (dest : destination) (s : monitor_state) (r : test_result)
    (hh : 1 ≤ dest.history) :
    (add_result dest s r).history.length ≤ min dest.history 1000 ∧
      (add_result dest s r).history.getLast? = some (add_result dest s r).last_result := by
  have hmin : 1 ≤ min dest.history 1000 := by omega
  have hhist : (add_result dest s r).history =
      trim_history (min dest.history 1000) (s.history ++ [r]) := by
    unfold add_result
    rw [(update_status_history dest _ _).1]
  have hlast : (add_result dest s r).last_result = r := by
    unfold add_result
    rw [(update_status_history dest _ _).2]
  constructor
  · rw [hhist]
    rcases trim_history_le (min dest.history 1000) (s.history ++ [r]) with h | h
    · exact h
    · rw [h.1]; exact h.2
  · rw [hhist, hlast]
    exact trim_history_getLast _ hmin s.history r

/-- Witness for C8: with history cap 1, applying an outcome to a state with a
one-element history keeps the length at 1 and the last element current. -/
theorem history_invariant_witness :
    (add_result ⟨2, 3, 2, 1⟩ monitor_state.init ⟨true, 5, 7, none⟩).history.length ≤
        min (1 : Nat) 1000 ∧
      (add_result ⟨2, 3, 2, 1⟩ monitor_state.init ⟨true, 5, 7, none⟩).history.getLast? =
        some (add_result ⟨2, 3, 2, 1⟩ monitor_state.init ⟨true, 5, 7, none⟩).last_result := by
  exact history_invariant ⟨2, 3, 2, 1⟩ monitor_state.init ⟨true, 5, 7, none⟩ (by decide)

/- ------------------------------------------------------------------ -/
/- Claim C5: scheduler retry policy                                    -/
/- ------------------------------------------------------------------ -/

/-- The `fixed_delay_recovery` policy (src/src/utils/task_recovery_policy.h):
a retry delay in seconds and a maximum retry count.  The defaults are
`retry_delay = 10 s`, `max_retries = 3`. -/
structure fixed_delay_recovery where
  retry_delay : Nat
  max_retries : Nat
deriving DecidableEq

/-- Default-constructed policy, from the default arguments of the
`fixed_delay_recovery` constructor. -/
def fixed_delay_recovery.default_policy : fixed_delay_recovery :=
  { retry_delay := 10, max_retries := 3 }

/-- `fixed_delay_recovery::should_retry` (src/src/utils/task_recovery_policy.cpp
lines 8-16): abandon when `failure_count >= max_retries_`, otherwise return
the retry delay. -/
def fixed_delay_recovery.should_retry (p : fixed_delay_recovery)
    (failure_count : Nat) : Option Nat :=
  if p.max_retries ≤ failure_count then none else some p.retry_delay

/-- A scheduled task (struct `scheduled_task` of src/src/utils/async_scheduler.h);
the closure itself is opaque and identified by `id`. -/
structure scheduled_task where
  next_run : Nat
  interval : Nat
  repeating : Bool
  failure_count : Nat
  id : Nat
deriving DecidableEq

/-- The `catch` branch of `async_scheduler::scheduler_loop`
(src/src/utils/async_scheduler.cpp lines 130-145): when submitting a task to the
worker pool throws, increment `failure_count`; for a repeating task while the
scheduler is running, consult the recovery policy; a returned delay re-enqueues
the task at `now + delay`, otherwise the task is abandoned (`none`). -/
def on_submit_failure (p : fixed_delay_recovery) (running : Bool) (now : Nat)
    (t : scheduled_task) : Option scheduled_task :=
  let t1 := { t with failure_count := t.failure_count + 1 }
  if t1.repeating && running then
    match p.should_retry t1.failure_count with
    | some d => some { t1 with next_run := now + d }
    | none => none
  else
    none

/-- Claim C5 counterexample: under the default policy (max 3), a repeating
task whose submission fails with prior `failure_count = 2` reaches
`failure_count = 3 ≤ max` after the increment, yet the code abandons it
(`should_retry` tests `failure_count >= max_retries_`), contradicting the
claim that it is re-enqueued while `failure_count ≤ max`. -/
theorem retry_at_max_abandoned :
    on_submit_failure fixed_delay_recovery.default_policy true 0 ⟨0, 5, true, 2, 1⟩ = none ∧
      2 + 1 ≤ fixed_delay_recovery.default_policy.max_retries := by
  exact ⟨rfl, by decide⟩

/-- Claim C5 amended: on a submission failure the task's `failure_count` is
incremented, and the task is re-enqueued at `now + retry_delay` iff it is
repeating, the scheduler is running, and the incremented `failure_count` is
strictly below the maximum; otherwise it is abandoned.  The default policy
uses a 10 s delay and maximum 3. -/
theorem retry_policy_characterization (p : fixed_delay_recovery) (running : Bool)
    (now : Nat) (t : scheduled_task) :
    on_submit_failure p running now t =
      (if t.repeating = true ∧ running = true ∧ t.failure_count + 1 < p.max_retries then
        some { next_run := now + p.retry_delay, interval := t.interval,
               repeating := t.repeating, failure_count := t.failure_count + 1, id := t.id }
      else none) ∧
    fixed_delay_recovery.default_policy.retry_delay = 10 ∧
    fixed_delay_recovery.default_policy.max_retries = 3 := by
  refine ⟨?_, rfl, rfl⟩
  rcases t with ⟨nr, iv, rep, fc, tid⟩
  unfold on_submit_failure fixed_delay_recovery.should_retry
  rcases rep <;> rcases running <;>
    simp only [Bool.and_false, Bool.and_true, Bool.and_self, Bool.false_eq_true,
      if_false, if_true, false_and, and_false, true_and, and_true]
  by_cases hm : p.max_retries ≤ fc + 1
  · rw [if_pos hm, if_neg (by omega)]
  · rw [if_neg hm, if_pos (by omega)]

/- ------------------------------------------------------------------ -/
/- Claim C6: system-ping hostname validation                           -/
/- ------------------------------------------------------------------ -/

/-- The character blacklist of `system_ping_tester::build_ping_command`
(src/src/testers/ping_tester.cpp line 217): `";&|`$(){}[]<>"`. -/
def shell_metachars : List Char := ";&|`$()\x7b\x7d[]<>".data

/-- `system_ping_tester::build_ping_command` (src/src/testers/ping_tester.cpp
lines 210-224): builds `ping -c 1 -W <timeout_ms/1000+1> '<host>' 2>/dev/null`,
throwing (modelled as `Except.error`) when the host contains a blacklisted
character. -/
def build_ping_command (host : String) (timeout_ms : Nat) : Except String String :=
  if host.data.any (fun c => shell_metachars.contains c) then
    Except.error "Invalid characters in hostname"
  else
    Except.ok ("ping -c 1 -W " ++ toString (timeout_ms / 1000 + 1) ++ " '" ++
      host ++ "' 2>/dev/null")

/-- A single character admitted by the spec's hostname regex
`^[A-Za-z0-9._:-]a1,255a$` (written with the brace quantifier spelled out). -/
def hostname_regex_char (c : Char) : Bool :=
  c.isUpper || c.isLower || c.isDigit || c == '.' || c == '_' || c == ':' || c == '-'

/-- The spec's hostname regex as a predicate: length between 1 and 255 and
every character admitted. -/
def matches_hostname_regex (host : String) : Bool :=
  decide (1 ≤ host.data.length) && decide (host.data.length ≤ 255) &&
    host.data.all hostname_regex_char

/-- The success flag and, when a shell was forked, the executed command of
`system_ping_tester::ping_host` (src/src/testers/ping_tester.cpp lines 174-208):
a `build_ping_command` exception is caught and turned into a failed outcome
without running `popen`; otherwise `popen` runs the command and the outcome is
determined by the exit code and output parsing (abstracted as `run`). -/
def system_ping_outcome (run : String → Bool) (host : String) (timeout_ms : Nat) :
    Bool × Option String :=
  match build_ping_command host timeout_ms with
  | Except.error _ => (false, none)
  | Except.ok cmd => (run cmd, some cmd)

/-- Claim C6 counterexample: the hostname `"a b"` fails the spec's regex
(space is not an admitted character) yet the executor does not reject it: the
blacklist check passes and the shell command containing the hostname is built
and executed. -/
theorem ping_regex_not_enforced :
    matches_hostname_regex "a b" = false ∧
      build_ping_command "a b" 1000 = Except.ok "ping -c 1 -W 2 'a b' 2>/dev/null" ∧
      (system_ping_outcome (fun _ => false) "a b" 1000).2 =
        some "ping -c 1 -W 2 'a b' 2>/dev/null" := by
  refine ⟨by decide, rfl, rfl⟩

theorem metachar_not_regex_char :
    ∀ c ∈ shell_metachars, hostname_regex_char c = false := by
  decide

/-- Claim C6 amended: the system-ping executor rejects exactly the hostnames
containing one of the characters `;&|`$(){}[]<>` — a strict subset of the
hostnames failing the spec's regex: a rejected hostname yields a failed
outcome and no shell command is executed, every rejected hostname indeed
fails the regex, but a hostname free of those characters is substituted into
the executed ping command even when it fails the regex. -/
theorem ping_blacklist_characterization (run : String → Bool) (host : String)
    (timeout_ms : Nat) :
    (host.data.any (fun c => shell_metachars.contains c) = true →
      system_ping_outcome run host timeout_ms = (false, none) ∧
        matches_hostname_regex host = false) ∧
    (host.data.any (fun c => shell_metachars.contains c) = false →
      (system_ping_outcome run host timeout_ms).2 =
        some ("ping -c 1 -W " ++ toString (timeout_ms / 1000 + 1) ++ " '" ++
          host ++ "' 2>/dev/null")) := by
  constructor
  · intro h
    constructor
    · unfold system_ping_outcome build_ping_command
      rw [if_pos h]
    · rw [List.any_eq_true] at h
      obtain ⟨c, hc, hcmem⟩ := h
      have hbad : hostname_regex_char c = false :=
        metachar_not_regex_char c (by simpa using hcmem)
      unfold matches_hostname_regex
      have : host.data.all hostname_regex_char = false := by
        rw [List.all_eq_false]
        exact ⟨c, hc, by simp [hbad]⟩
      simp [this]
  · intro h
    unfold system_ping_outcome build_ping_command
    rw [if_neg (by rw [h]; simp)]

/-- Witness for the amended C6: the hostname `a;rm` is rejected with no shell
command, while `localhost` runs the ping command. -/
theorem ping_blacklist_witness :
    system_ping_outcome (fun _ => true) "a;rm" 500 = (false, none) ∧
      (system_ping_outcome (fun _ => true) "localhost" 500).2 =
        some "ping -c 1 -W 1 'localhost' 2>/dev/null" := by
  constructor
  · exact ((ping_blacklist_characterization (fun _ => true) "a;rm" 500).1 (by decide)).1
  · exact (ping_blacklist_characterization (fun _ => true) "localhost" 500).2 (by decide)

/- ------------------------------------------------------------------ -/
/- Claim C4: push notification delivery and subscription removal       -/
/- ------------------------------------------------------------------ -/

/-- A Web Push subscription (src/src/web/push_subscription.h). -/
structure push_subscription where
  endpoint : String
  p256dh : String
  auth : String
deriving DecidableEq

/-- What the push service answered for one delivery attempt: an HTTP status,
a transport-level failure (`!res`), or a thrown exception. -/
inductive delivery_response : Type where
  | http : Nat → delivery_response
  | transport_failure : delivery_response
  | thrown : delivery_response
deriving DecidableEq

/-- The return value of `push_notification_manager::send_web_push`
(src/src/web/push_notification_manager.cpp lines 206-231): `true` iff the HTTP
status is in `[200, 300)`; 404/410, other statuses, transport failures and
exceptions all return `false`. -/
def send_web_push_ok (r : delivery_response) : Bool :=
  match r with
  | delivery_response.http status => decide (200 ≤ status) && decide (status < 300)
  | delivery_response.transport_failure => false
  | delivery_response.thrown => false

/-- The removal loop of `push_notification_manager::send_notification`
(src/src/web/push_notification_manager.cpp lines 106-111): for each failed
endpoint, `std::erase_if` all subscriptions with that endpoint. -/
def remove_failed (subs : List push_subscription) (failed : List String) :
    List push_subscription :=
  failed.foldl (fun acc ep => acc.filter (fun sub => sub.endpoint != ep)) subs

/-- `push_notification_manager::send_notification`
(src/src/web/push_notification_manager.cpp lines 77-114) with the delivery
outcome of each subscription abstracted as `deliver`: returns whether any
delivery succeeded together with the surviving subscription list. -/
def send_notification (enabled : Bool) (subs : List push_subscription)
    (deliver : push_subscription → delivery_response) :
    Bool × List push_subscription :=
  if !enabled then (false, subs)
  else if subs.isEmpty then (false, subs)
  else
    let flags := subs.map (fun sub => (sub, send_web_push_ok (deliver sub)))
    let any_success := flags.any (fun p => p.2)
    let failed := (flags.filter (fun p => !p.2)).map (fun p => p.1.endpoint)
    (any_success, remove_failed subs failed)

/-- Claim C4 counterexample: a subscription whose delivery was answered with
HTTP 500 — neither 404 nor 410 — is nevertheless removed from the
subscription set, contradicting the claim that only 404/410 removes. -/
theorem http500_removes_subscription :
    (send_notification true [⟨"a", "k", "s"⟩]
        (fun _ => delivery_response.http 500)).2 = [] ∧
      (500 : Nat) ≠ 404 ∧ (500 : Nat) ≠ 410 := by
  refine ⟨rfl, by decide, by decide⟩

theorem list_any_map {α β : Type} (f : α → β) (p : β → Bool) :
    ∀ l : List α, (l.map f).any p = l.any fun a => p (f a)
  | [] => rfl
  | a :: t => by simp [List.any_cons, list_any_map f p t]

theorem remove_failed_eq_filter (failed : List String) :
    ∀ subs : List push_subscription,
      remove_failed subs failed =
        subs.filter (fun sub => !(failed.contains sub.endpoint)) := by
  induction failed with
  | nil => intro subs; simp [remove_failed]
  | cons ep rest ih =>
      intro subs
      have hstep : remove_failed subs (ep :: rest) =
          remove_failed (subs.filter (fun sub => sub.endpoint != ep)) rest := rfl
      rw [hstep, ih]
      rw [List.filter_filter]
      refine List.filter_congr ?_
      intro sub _
      by_cases heq : sub.endpoint = ep <;> simp [List.contains_cons, bne, heq]

/-- Claim C4 amended: `send_notification` keeps a subscription iff its
delivery received a 2xx response; every failed delivery — HTTP 404/410, any
other non-2xx status, a transport failure, or an exception — causes the
subscription's removal; the operation returns true iff at least one delivery
received a 2xx response.  (Endpoint uniqueness is the documented invariant of
the subscription set.) -/
theorem send_notification_removes_failed (subs : List push_subscription)
    (deliver : push_subscription → delivery_response)
    (hne : subs ≠ [])
    (hnodup : (subs.map push_subscription.endpoint).Nodup) :
    (send_notification true subs deliver).1 =
        subs.any (fun sub => send_web_push_ok (deliver sub)) ∧
      (send_notification true subs deliver).2 =
        subs.filter (fun sub => send_web_push_ok (deliver sub)) := by
  unfold send_notification
  rw [Bool.not_true, if_neg (by simp), if_neg (by simp [hne])]
  dsimp only
  constructor
  · rw [list_any_map]
  · rw [remove_failed_eq_filter]
    refine List.filter_congr ?_
    intro sub hsub
    have hfailed : ((subs.map (fun sub => (sub, send_web_push_ok (deliver sub)))).filter
          (fun p => !p.2)).map (fun p => p.1.endpoint) =
        (subs.filter (fun sub => !(send_web_push_ok (deliver sub)))).map
          push_subscription.endpoint := by
      rw [List.filter_map, List.map_map]
      rfl
    rw [hfailed]
    rcases hflag : send_web_push_ok (deliver sub) with _ | _
    · have hmem : sub.endpoint ∈
          (subs.filter (fun sub => !(send_web_push_ok (deliver sub)))).map
            push_subscription.endpoint :=
        List.mem_map_of_mem _ (List.mem_filter.mpr ⟨hsub, by simp [hflag]⟩)
      simp [List.contains, hmem]
    · have hnotmem : sub.endpoint ∉
          (subs.filter (fun sub => !(send_web_push_ok (deliver sub)))).map
            push_subscription.endpoint := by
        intro hmem
        obtain ⟨sub', hsub', hep⟩ := List.mem_map.mp hmem
        have hsub'mem : sub' ∈ subs := (List.mem_filter.mp hsub').1
        have hsub'flag : send_web_push_ok (deliver sub') = false := by
          have := (List.mem_filter.mp hsub').2
          simpa using this
        have : sub' = sub :=
          List.inj_on_of_nodup_map hnodup hsub'mem hsub hep
        rw [this, hflag] at hsub'flag
        simp at hsub'flag
      simp [List.contains, hnotmem]

/-- Witness for the amended C4: of two subscriptions, the one answered 201 is
kept and the one answered 410 removed; the call reports success. -/
theorem send_notification_removes_failed_witness :
    (send_notification true [⟨"a", "k", "s"⟩, ⟨"b", "k", "s"⟩]
        (fun sub => if sub.endpoint == "a" then delivery_response.http 201
          else delivery_response.http 410)).1 = true ∧
      (send_notification true [⟨"a", "k", "s"⟩, ⟨"b", "k", "s"⟩]
        (fun sub => if sub.endpoint == "a" then delivery_response.http 201
          else delivery_response.http 410)).2 = [⟨"a", "k", "s"⟩] := by
  have h := send_notification_removes_failed
    [⟨"a", "k", "s"⟩, ⟨"b", "k", "s"⟩]
    (fun sub => if sub.endpoint == "a" then delivery_response.http 201
      else delivery_response.http 410)
    (by decide) (by decide)
  exact ⟨by rw [h.1]; rfl, by rw [h.2]; rfl⟩

/- ------------------------------------------------------------------ -/
/- Claim C7: Web Push request body framing (RFC 8291 aes128gcm)        -/
/- ------------------------------------------------------------------ -/

/-- The output of `webpush_encryption::encrypt`
(struct `encrypted_payload` of src/src/web/webpush_encryption.h). -/
structure encrypted_payload where
  ciphertext : List Nat
  salt : List Nat
  server_public_key : List Nat
deriving DecidableEq

/-- `build_webpush_context` (src/src/crypto/webpush_encryption.cpp lines 23-35):
`"WebPush: info" || 0x00 || client_pub || server_pub`. -/
def webpush_context (client_public_key server_public_key : List Nat) : List Nat :=
  ("WebPush: info".data.map Char.toNat) ++ [0] ++ client_public_key ++ server_public_key

/-- `build_content_encoding_label` (src/src/crypto/webpush_encryption.cpp
lines 37-41): the label bytes followed by `0x00`. -/
def content_encoding_label (label : String) : List Nat :=
  label.data.map Char.toNat ++ [0]

/-- The fixed record size of `webpush_encryption::build_request_body`. -/
def record_size : Nat := 4096

/-- `webpush_encryption::build_request_body` (src/src/crypto/webpush_encryption.cpp
lines 144-192): `salt || rs(4, big-endian) || idlen(1, 65) || keyid || ciphertext`. -/
def build_request_body (payload : encrypted_payload) : List Nat :=
  payload.salt ++
    [(record_size >>> 24) &&& 255, (record_size >>> 16) &&& 255,
      (record_size >>> 8) &&& 255, record_size &&& 255] ++
    [65] ++ payload.server_public_key ++ payload.ciphertext

/-- `webpush_encryption::encrypt` (src/src/crypto/webpush_encryption.cpp
lines 74-142).  The OpenSSL primitives (HKDF-SHA256 and AES-128-GCM) are
external library calls and appear as function parameters; likewise the random
salt, the ephemeral server key pair and the ECDH shared secret, which the code
obtains from OpenSSL's RNG, are passed in.  The size checks and the key
derivation data flow are the code's. -/
def webpush_encrypt
    (hkdf_derive : List Nat → List Nat → List Nat → Nat → List Nat)
    (aes128gcm_encrypt : List Nat → List Nat → List Nat → Option (List Nat))
    (client_public_key auth_secret salt server_public_key shared_secret : List Nat)
    (plaintext : List Nat) : Except String encrypted_payload :=
  if client_public_key.length ≠ 65 then Except.error "Invalid client public key size"
  else if auth_secret.length ≠ 16 then Except.error "Invalid auth secret size"
  else
    let context := webpush_context client_public_key server_public_key
    let prk := hkdf_derive shared_secret auth_secret context 32
    let content_encryption_key :=
      hkdf_derive prk salt (content_encoding_label "Content-Encoding: aes128gcm") 16
    let nonce := hkdf_derive prk salt (content_encoding_label "Content-Encoding: nonce") 12
    let padded_plaintext := plaintext ++ [2]
    match aes128gcm_encrypt padded_plaintext content_encryption_key nonce with
    | some ciphertext =>
        Except.ok { ciphertext := ciphertext, salt := salt,
                    server_public_key := server_public_key }
    | none => Except.error "AES-GCM encryption failed"

/-- Claim C7: for every encrypted payload produced by `webpush_encrypt` with a
16-byte salt and 65-byte server public key, the request body is exactly
`salt(16) || [0,0,16,0] (4096 big-endian) || [65] || server_pub(65) ||
ciphertext`, and the ciphertext is the AES-128-GCM encryption of
`plaintext || 0x02` (no additional padding) under the HKDF-derived key and
nonce. -/
theorem webpush_body_framing
    (hkdf_derive : List Nat → List Nat → List Nat → Nat → List Nat)
    (aes128gcm_encrypt : List Nat → List Nat → List Nat → Option (List Nat))
    (client_public_key auth_secret salt server_public_key shared_secret : List Nat)
    (plaintext : List Nat) (p : encrypted_payload)
    (hsalt : salt.length = 16) (hserver : server_public_key.length = 65)
    (henc : webpush_encrypt hkdf_derive aes128gcm_encrypt client_public_key
        auth_secret salt server_public_key shared_secret plaintext = Except.ok p) :
    build_request_body p =
        salt ++ [0, 0, 16, 0] ++ [65] ++ server_public_key ++ p.ciphertext ∧
      p.salt = salt ∧ p.salt.length = 16 ∧
      p.server_public_key = server_public_key ∧ p.server_public_key.length = 65 ∧
      aes128gcm_encrypt (plaintext ++ [2])
          (hkdf_derive
            (hkdf_derive shared_secret auth_secret
              (webpush_context client_public_key server_public_key) 32)
            salt (content_encoding_label "Content-Encoding: aes128gcm") 16)
          (hkdf_derive
            (hkdf_derive shared_secret auth_secret
              (webpush_context client_public_key server_public_key) 32)
            salt (content_encoding_label "Content-Encoding: nonce") 12) =
        some p.ciphertext := by
  unfold webpush_encrypt at henc
  split at henc
  · exact absurd henc (by simp)
  · split at henc
    · exact absurd henc (by simp)
    · dsimp only at henc
      rcases haes : aes128gcm_encrypt (plaintext ++ [2])
          (hkdf_derive
            (hkdf_derive shared_secret auth_secret
              (webpush_context client_public_key server_public_key) 32)
            salt (content_encoding_label "Content-Encoding: aes128gcm") 16)
          (hkdf_derive
            (hkdf_derive shared_secret auth_secret
              (webpush_context client_public_key server_public_key) 32)
            salt (content_encoding_label "Content-Encoding: nonce") 12) with _ | ct
      · rw [haes] at henc
        exact absurd henc (by simp)
      · rw [haes] at henc
        simp only [Except.ok.injEq] at henc
        subst henc
        exact ⟨rfl, rfl, hsalt, rfl, hserver, rfl⟩

/-- Witness for C7 at a concrete payload: dummy primitives, 16-byte salt,
65-byte server key, plaintext `[104, 105]`. -/
theorem webpush_body_framing_witness :
    build_request_body
        { ciphertext := [104, 105, 2] ++ List.replicate 16 255,
          salt := List.replicate 16 2, server_public_key := List.replicate 65 3 } =
      List.replicate 16 2 ++ [0, 0, 16, 0] ++ [65] ++ List.replicate 65 3 ++
        ([104, 105, 2] ++ List.replicate 16 255) := by
  exact (webpush_body_framing (fun _ _ _ n => List.replicate n 0)
    (fun padded _ _ => some (padded ++ List.replicate 16 255))
    (List.replicate 65 4) (List.replicate 16 1) (List.replicate 16 2)
    (List.replicate 65 3) (List.replicate 32 5) [104, 105]
    { ciphertext := [104, 105, 2] ++ List.replicate 16 255,
      salt := List.replicate 16 2, server_public_key := List.replicate 65 3 }
    (by simp) (by simp) rfl).1

/- ------------------------------------------------------------------ -/
/- Claim C10: the worker pool never discards a queued task             -/
/- ------------------------------------------------------------------ -/

/-- `std::max(2UL, std::min(num_threads, 32UL))` — the clamp of the
`thread_pool` constructor (src/src/utils/thread_pool.cpp line 7). -/
def thread_pool_size (num_threads : Nat) : Nat := max 2 (min num_threads 32)

/-- Abstract state of the worker pool: tasks are identified by numbers;
`accepted` records every closure that entered the queue, `queue` the pending
ones, `executed` the finished ones (in order), `stop` the stop flag and
`workers` the number of live worker threads. -/
structure pool_state where
  accepted : List Nat
  queue : List Nat
  executed : List Nat
  stop : Bool
  workers : Nat
deriving DecidableEq

/-- The pool right after the `thread_pool` constructor. -/
def pool_init (num_threads : Nat) : pool_state :=
  { accepted := [], queue := [], executed := [], stop := false,
    workers := thread_pool_size num_threads }

/-- One transition of the pool (src/src/utils/thread_pool.cpp lines 15-60 and
`thread_pool::enqueue` in src/src/thread_pool.h):
`enqueue` appends a task, allowed only while the stop flag is clear (enqueue
on a stopped pool throws before touching the queue); `set_stop` is the
destructor setting the flag; `run_task` is a worker popping the queue front
and running it (exceptions are caught, so the task still counts as executed);
`worker_exit` is a worker returning, which the loop permits only when the
stop flag is set and the queue is empty. -/
inductive pool_step : pool_state → pool_state → Prop where
  | enqueue (s : pool_state) (t : Nat) (h : s.stop = false) :
      pool_step s { s with accepted := s.accepted ++ [t], queue := s.queue ++ [t] }
  | set_stop (s : pool_state) :
      pool_step s { s with stop := true }
  | run_task (s : pool_state) (t : Nat) (rest : List Nat)
      (hq : s.queue = t :: rest) (hw : 0 < s.workers) :
      pool_step s { s with queue := rest, executed := s.executed ++ [t] }
  | worker_exit (s : pool_state) (hstop : s.stop = true) (hq : s.queue = []) :
      pool_step s { s with workers := s.workers - 1 }

/-- Safety invariant of the pool: every accepted task is executed or still
queued, and once any worker has exited, the stop flag is set and the queue is
already empty. -/
def pool_invariant (num_threads : Nat) (s : pool_state) : Prop :=
  s.executed ++ s.queue = s.accepted ∧
    (s.workers < thread_pool_size num_threads → s.stop = true ∧ s.queue = [])

theorem pool_invariant_init (num_threads : Nat) :
    pool_invariant num_threads (pool_init num_threads) := by
  constructor
  · rfl
  · intro hw
    exact absurd hw (by simp [pool_init])

theorem pool_invariant_step (num_threads : Nat) (s s' : pool_state)
    (hs : pool_invariant num_threads s) (hstep : pool_step s s') :
    pool_invariant num_threads s' := by
  cases hstep with
  | enqueue t h =>
      constructor
      · dsimp only
        rw [← List.append_assoc, hs.1]
      · intro hw
        exact absurd (hs.2 hw).1 (by rw [h]; simp)
  | set_stop =>
      exact ⟨hs.1, fun hw => ⟨rfl, (hs.2 hw).2⟩⟩
  | run_task t rest hq hw =>
      constructor
      · dsimp only
        rw [List.append_assoc]
        rw [show [t] ++ rest = t :: rest from rfl, ← hq]
        exact hs.1
      · intro hlt
        have := (hs.2 hlt).2
        rw [hq] at this
        exact absurd this (by simp)
  | worker_exit hstop hq =>
      exact ⟨hs.1, fun _ => ⟨hstop, hq⟩⟩

theorem pool_invariant_reachable (num_threads : Nat) (s : pool_state)
    (h : Relation.ReflTransGen pool_step (pool_init num_threads) s) :
    pool_invariant num_threads s := by
  induction h with
  | refl => exact pool_invariant_init num_threads
  | tail _ hstep ih => exact pool_invariant_step num_threads _ _ ih hstep

/-- Claim C10: in every reachable pool state, each task accepted into the
queue is executed or still pending (per-task counts match exactly), and once
all workers have exited the queue is empty and every accepted task has been
executed exactly as many times as it was accepted — shutdown never discards a
queued task, because a worker only returns when the stop flag is set and the
queue is empty. -/
theorem worker_pool_no_task_lost (num_threads : Nat) (s : pool_state)
    (h : Relation.ReflTransGen pool_step (pool_init num_threads) s) :
    s.executed ++ s.queue = s.accepted ∧
      (∀ t, s.executed.count t + s.queue.count t = s.accepted.count t) ∧
      (s.workers = 0 → s.queue = [] ∧ s.executed = s.accepted) := by
  have hinv := pool_invariant_reachable num_threads s h
  refine ⟨hinv.1, ?_, ?_⟩
  · intro t
    rw [← hinv.1, List.count_append]
  · intro hw
    have hlt : s.workers < thread_pool_size num_threads := by
      rw [hw]
      unfold thread_pool_size
      omega
    have hq : s.queue = [] := (hinv.2 hlt).2
    refine ⟨hq, ?_⟩
    rw [← hinv.1, hq, List.append_nil]

/-- Witness for C10: a pool of two workers that accepts task 7, is stopped,
runs the task, and joins both workers ends with the task executed and
nothing lost. -/
theorem worker_pool_no_task_lost_witness :
    (([7] : List Nat) ++ [] = [7] ∧
      (∀ t, ([7] : List Nat).count t + ([] : List Nat).count t = ([7] : List Nat).count t) ∧
      ((0 : Nat) = 0 → ([] : List Nat) = [] ∧ ([7] : List Nat) = [7])) := by
  have s1 : pool_step (pool_init 2) ⟨[7], [7], [], false, 2⟩ :=
    pool_step.enqueue (pool_init 2) 7 rfl
  have s2 : pool_step ⟨[7], [7], [], false, 2⟩ ⟨[7], [7], [], true, 2⟩ :=
    pool_step.set_stop _
  have s3 : pool_step ⟨[7], [7], [], true, 2⟩ ⟨[7], [], [7], true, 2⟩ :=
    pool_step.run_task _ 7 [] rfl (by decide)
  have s4 : pool_step ⟨[7], [], [7], true, 2⟩ ⟨[7], [], [7], true, 1⟩ :=
    pool_step.worker_exit _ rfl rfl
  have s5 : pool_step ⟨[7], [], [7], true, 1⟩ ⟨[7], [], [7], true, 0⟩ :=
    pool_step.worker_exit _ rfl rfl
  have hreach : Relation.ReflTransGen pool_step (pool_init 2) ⟨[7], [], [7], true, 0⟩ :=
    Relation.ReflTransGen.tail (Relation.ReflTransGen.tail (Relation.ReflTransGen.tail
      (Relation.ReflTransGen.tail (Relation.ReflTransGen.tail
        Relation.ReflTransGen.refl s1) s2) s3) s4) s5
  exact worker_pool_no_task_lost 2 ⟨[7], [], [7], true, 0⟩ hreach

/- ------------------------------------------------------------------ -/
/- Claim C9: Base64URL round trip                                      -/
/- ------------------------------------------------------------------ -/

/-- The standard Base64 alphabet used by OpenSSL's BIO base64 codec. -/
def b64_alphabet : List Char :=
  "ABCDEFGHIJKLMNOPQRSTUVWXYZabcdefghijklmnopqrstuvwxyz0123456789+/".data

/-- The alphabet character for a 6-bit value. -/
def b64char (n : Nat) : Char := b64_alphabet.getD n '='

/-- The 6-bit value of an alphabet character. -/
def b64val (c : Char) : Nat := b64_alphabet.indexOf c

/-- Standard padded Base64 encoding of a byte list, three bytes to four
characters: the `BIO_f_base64` writer that `base64url::encode`
(src/src/crypto/crypto_utils.cpp lines 22-48) delegates to. -/
def b64encode : List Nat → List Char
  | [] => []
  | [a] => [b64char (a / 4), b64char (a % 4 * 16), '=', '=']
  | [a, b] => [b64char (a / 4), b64char (a % 4 * 16 + b / 16), b64char (b % 16 * 4), '=']
  | a :: b :: c :: rest =>
      b64char (a / 4) :: b64char (a % 4 * 16 + b / 16) ::
        b64char (b % 16 * 4 + c / 64) :: b64char (c % 64) :: b64encode rest

/-- Standard Base64 decoding of a padded character list, four characters to
up to three bytes: the `BIO_f_base64` reader that `base64url::decode`
(src/src/crypto/crypto_utils.cpp lines 55-89) delegates to. -/
def b64decode : List Char → List Nat
  | c1 :: c2 :: c3 :: c4 :: rest =>
      if c3 = '=' then [b64val c1 * 4 + b64val c2 / 16]
      else if c4 = '=' then
        [b64val c1 * 4 + b64val c2 / 16, b64val c2 % 16 * 16 + b64val c3 / 4]
      else
        (b64val c1 * 4 + b64val c2 / 16) :: (b64val c2 % 16 * 16 + b64val c3 / 4) ::
          (b64val c3 % 4 * 64 + b64val c4) :: b64decode rest
  | _ => []

/-- The URL-safe substitution of `base64url::encode`: `+` to `-`, `/` to `_`. -/
def urlsafe_char (c : Char) : Char :=
  if c = '+' then '-' else if c = '/' then '_' else c

/-- The inverse substitution of `base64url::decode`: `-` to `+`, `_` to `/`. -/
def unurlsafe_char (c : Char) : Char :=
  if c = '-' then '+' else if c = '_' then '/' else c

/-- `base64url::encode` (src/src/crypto/crypto_utils.cpp lines 22-48): empty
input encodes to the empty string; otherwise standard Base64, the URL-safe
character substitution, and all `=` padding erased. -/
def base64url_encode (data : List Nat) : List Char :=
  if data = [] then []
  else ((b64encode data).map urlsafe_char).filter (fun c => c != '=')

/-- `base64url::decode` (src/src/crypto/crypto_utils.cpp lines 55-89): empty
input decodes to the empty byte list; otherwise the URL-safe substitution is
undone, `=` padding restored to a multiple of four, and standard Base64
decoding applied. -/
def base64url_decode (s : List Char) : List Nat :=
  if s = [] then []
  else
    b64decode (s.map unurlsafe_char ++
      List.replicate ((4 - (s.map unurlsafe_char).length % 4) % 4) '=')

theorem b64_table_facts :
    ∀ n : Fin 64, b64val (b64char n.val) = n.val ∧ b64char n.val ≠ '=' ∧
      unurlsafe_char (urlsafe_char (b64char n.val)) = b64char n.val ∧
      urlsafe_char (b64char n.val) ≠ '=' := by
  decide

theorem b64val_b64char {n : Nat} (h : n < 64) : b64val (b64char n) = n :=
  (b64_table_facts ⟨n, h⟩).1

theorem b64char_ne_pad {n : Nat} (h : n < 64) : b64char n ≠ '=' :=
  (b64_table_facts ⟨n, h⟩).2.1

theorem unurl_url_b64char {n : Nat} (h : n < 64) :
    unurlsafe_char (urlsafe_char (b64char n)) = b64char n :=
  (b64_table_facts ⟨n, h⟩).2.2.1

theorem urlsafe_b64char_ne_pad {n : Nat} (h : n < 64) :
    urlsafe_char (b64char n) ≠ '=' :=
  (b64_table_facts ⟨n, h⟩).2.2.2

theorem b64_roundtrip : ∀ x : List Nat, (∀ b ∈ x, b < 256) →
    b64decode (b64encode x) = x
  | [], _ => rfl
  | [a], h => by
      have ha : a < 256 := h a (by simp)
      have h1 : a / 4 < 64 := by omega
      have h2 : a % 4 * 16 < 64 := by omega
      unfold b64encode b64decode
      rw [if_pos rfl, b64val_b64char h1, b64val_b64char h2]
      simp only [List.cons.injEq, and_true]
      omega
  | [a, b], h => by
      have ha : a < 256 := h a (by simp)
      have hb : b < 256 := h b (by simp)
      have h1 : a / 4 < 64 := by omega
      have h2 : a % 4 * 16 + b / 16 < 64 := by omega
      have h3 : b % 16 * 4 < 64 := by omega
      unfold b64encode b64decode
      rw [if_neg (b64char_ne_pad h3), if_pos rfl,
        b64val_b64char h1, b64val_b64char h2, b64val_b64char h3]
      simp only [List.cons.injEq, and_true]
      constructor <;> omega
  | a :: b :: c :: rest, h => by
      have ha : a < 256 := h a (by simp)
      have hb : b < 256 := h b (by simp)
      have hc : c < 256 := h c (by simp)
      have hrest : ∀ y ∈ rest, y < 256 := fun y hy => h y (by simp [hy])
      have h1 : a / 4 < 64 := by omega
      have h2 : a % 4 * 16 + b / 16 < 64 := by omega
      have h3 : b % 16 * 4 + c / 64 < 64 := by omega
      have h4 : c % 64 < 64 := by omega
      have ih := b64_roundtrip rest hrest
      unfold b64encode b64decode
      rw [if_neg (b64char_ne_pad h3), if_neg (b64char_ne_pad h4),
        b64val_b64char h1, b64val_b64char h2, b64val_b64char h3, b64val_b64char h4]
      rw [ih]
      simp only [List.cons.injEq, and_true]
      refine ⟨by omega, by omega, by omega⟩

theorem bne_eq_true_of_ne {c d : Char} (h : c ≠ d) : (c != d) = true := by
  simp [h]

theorem b64encode_chars : ∀ x : List Nat, (∀ b ∈ x, b < 256) →
    ∀ ch ∈ b64encode x, ch = '=' ∨ ∃ n, n < 64 ∧ ch = b64char n
  | [], _ => by intro ch hch; simp [b64encode] at hch
  | [a], h => by
      intro ch hch
      have ha : a < 256 := h a (by simp)
      unfold b64encode at hch
      simp only [List.mem_cons, List.not_mem_nil, or_false] at hch
      rcases hch with rfl | rfl | rfl | rfl
      · exact Or.inr ⟨a / 4, by omega, rfl⟩
      · exact Or.inr ⟨a % 4 * 16, by omega, rfl⟩
      · exact Or.inl rfl
      · exact Or.inl rfl
  | [a, b], h => by
      intro ch hch
      have ha : a < 256 := h a (by simp)
      have hb : b < 256 := h b (by simp)
      unfold b64encode at hch
      simp only [List.mem_cons, List.not_mem_nil, or_false] at hch
      rcases hch with rfl | rfl | rfl | rfl
      · exact Or.inr ⟨a / 4, by omega, rfl⟩
      · exact Or.inr ⟨a % 4 * 16 + b / 16, by omega, rfl⟩
      · exact Or.inr ⟨b % 16 * 4, by omega, rfl⟩
      · exact Or.inl rfl
  | a :: b :: c :: rest, h => by
      intro ch hch
      have ha : a < 256 := h a (by simp)
      have hb : b < 256 := h b (by simp)
      have hc : c < 256 := h c (by simp)
      have hrest : ∀ y ∈ rest, y < 256 := fun y hy => h y (by simp [hy])
      unfold b64encode at hch
      simp only [List.mem_cons] at hch
      rcases hch with rfl | rfl | rfl | rfl | hch
      · exact Or.inr ⟨a / 4, by omega, rfl⟩
      · exact Or.inr ⟨a % 4 * 16 + b / 16, by omega, rfl⟩
      · exact Or.inr ⟨b % 16 * 4 + c / 64, by omega, rfl⟩
      · exact Or.inr ⟨c % 64, by omega, rfl⟩
      · exact b64encode_chars rest hrest ch hch

theorem b64_strip_restore : ∀ x : List Nat, (∀ b ∈ x, b < 256) →
    ((b64encode x).filter (fun c => c != '=')) ++
      List.replicate
        ((4 - ((b64encode x).filter (fun c => c != '=')).length % 4) % 4) '=' =
      b64encode x
  | [], _ => rfl
  | [a], h => by
      have ha : a < 256 := h a (by simp)
      have hb1 := bne_eq_true_of_ne (b64char_ne_pad (show a / 4 < 64 by omega))
      have hb2 := bne_eq_true_of_ne (b64char_ne_pad (show a % 4 * 16 < 64 by omega))
      unfold b64encode
      simp only [List.filter_cons, hb1, hb2, if_true, List.filter_nil]
      rfl
  | [a, b], h => by
      have ha : a < 256 := h a (by simp)
      have hb : b < 256 := h b (by simp)
      have hb1 := bne_eq_true_of_ne (b64char_ne_pad (show a / 4 < 64 by omega))
      have hb2 := bne_eq_true_of_ne
        (b64char_ne_pad (show a % 4 * 16 + b / 16 < 64 by omega))
      have hb3 := bne_eq_true_of_ne (b64char_ne_pad (show b % 16 * 4 < 64 by omega))
      unfold b64encode
      simp only [List.filter_cons, hb1, hb2, hb3, if_true, List.filter_nil]
      rfl
  | a :: b :: c :: rest, h => by
      have ha : a < 256 := h a (by simp)
      have hb : b < 256 := h b (by simp)
      have hc : c < 256 := h c (by simp)
      have hrest : ∀ y ∈ rest, y < 256 := fun y hy => h y (by simp [hy])
      have hb1 := bne_eq_true_of_ne (b64char_ne_pad (show a / 4 < 64 by omega))
      have hb2 := bne_eq_true_of_ne
        (b64char_ne_pad (show a % 4 * 16 + b / 16 < 64 by omega))
      have hb3 := bne_eq_true_of_ne
        (b64char_ne_pad (show b % 16 * 4 + c / 64 < 64 by omega))
      have hb4 := bne_eq_true_of_ne (b64char_ne_pad (show c % 64 < 64 by omega))
      have ih := b64_strip_restore rest hrest
      unfold b64encode
      simp only [List.filter_cons, hb1, hb2, hb3, hb4, if_true, List.cons_append,
        List.length_cons]
      have hmod : (4 - (((b64encode rest).filter (fun c => c != '=')).length
            + 1 + 1 + 1 + 1) % 4) % 4 =
          (4 - ((b64encode rest).filter (fun c => c != '=')).length % 4) % 4 := by
        omega
      rw [hmod, ih]

theorem b64encode_cons_ne_nil (a : Nat) (x' : List Nat) : b64encode (a :: x') ≠ [] := by
  rcases x' with _ | ⟨b, x''⟩
  · simp [b64encode]
  · rcases x'' with _ | ⟨c, x'''⟩ <;> simp [b64encode]

/-- Claim C9: for every byte sequence, decoding the Base64URL encoding
returns the original bytes: the encoder applies standard Base64, maps `+` to
`-` and `/` to `_` and strips `=` padding; the decoder undoes the character
substitution, restores the padding and applies standard Base64 decoding. -/
theorem base64url_roundtrip (x : List Nat) (h : ∀ b ∈ x, b < 256) :
    base64url_decode (base64url_encode x) = x := by
  rcases x with _ | ⟨a, x'⟩
  · rfl
  · have hchars := b64encode_chars (a :: x') h
    have hsr := b64_strip_restore (a :: x') h
    have hfm : ((b64encode (a :: x')).map urlsafe_char).filter (fun c => c != '=') =
        ((b64encode (a :: x')).filter (fun c => c != '=')).map urlsafe_char := by
      rw [List.filter_map]
      refine congrArg _ (List.filter_congr ?_)
      intro ch hch
      rcases hchars ch hch with rfl | ⟨n, hn, rfl⟩
      · decide
      · simp only [Function.comp_apply]
        rw [bne_eq_true_of_ne (urlsafe_b64char_ne_pad hn),
          bne_eq_true_of_ne (b64char_ne_pad hn)]
    have hbody_ne : (b64encode (a :: x')).filter (fun c => c != '=') ≠ [] := by
      intro hb
      rw [hb] at hsr
      simp at hsr
      exact b64encode_cons_ne_nil a x' hsr
    have hunmap : (((b64encode (a :: x')).filter (fun c => c != '=')).map
          urlsafe_char).map unurlsafe_char =
        (b64encode (a :: x')).filter (fun c => c != '=') := by
      rw [List.map_map]
      refine List.map_congr_left ?_ |>.trans
        (List.map_id ((b64encode (a :: x')).filter (fun c => c != '=')))
      intro ch hch
      have hch' := (List.mem_filter.mp hch).1
      rcases hchars ch hch' with rfl | ⟨n, hn, rfl⟩
      · decide
      · exact unurl_url_b64char hn
    unfold base64url_encode
    rw [if_neg (by simp)]
    rw [hfm]
    unfold base64url_decode
    rw [if_neg (by
      simp only [ne_eq, List.map_eq_nil_iff]
      exact hbody_ne)]
    rw [hunmap, hsr]
    exact b64_roundtrip (a :: x') h

/-- Witness for C9 at a concrete byte sequence. -/
theorem base64url_roundtrip_witness :
    base64url_decode (base64url_encode [0, 1, 77, 250, 255]) = [0, 1, 77, 250, 255] :=
  base64url_roundtrip [0, 1, 77, 250, 255] (by decide)

end Argus
